import Mathlib

/-!
Verification of the BinaryCoverage repository: a shallow embedding of the
two Python source files (tests/e2e/test_calc.py and utils/find_lib.py)
together with spec-modelled definitions for the funkoverage tool whose
Go sources are not part of the repository (only the e2e test drives it).

File contents are modelled as List Char (one Char per byte/code point).
-/

/-! ## Basic list and string utilities shared by the embeddings -/

/-- Boolean prefix test on character lists. -/
def isPrefixB : List Char → List Char → Bool
  | [], _ => true
  | _ :: _, [] => false
  | a :: as, b :: bs => a == b && isPrefixB as bs

/-- Boolean substring (contiguous infix) test, mirroring the Python
operator `in` on strings. -/
def containsSub (n : List Char) : List Char → Bool
  | [] => isPrefixB n []
  | c :: t => isPrefixB n (c :: t) || containsSub n t

/-! ## Executable Transformer (wrap / unwrap)

The funkoverage tool itself is not part of the repository sources; only
its e2e test is.  The transformer is therefore modelled from the spec.
The signature string is taken verbatim from the source of
tests/e2e/test_calc.py (line 158). -/

/-- The fixed ASCII signature embedded in every wrapped artifact
(source: tests/e2e/test_calc.py, assertIn at line 158). -/
def wrapperSignature : List Char := "Pin Wrapper generated by Go tool funkoverage".data

/-- Modelled from the spec: the parameters needed to invoke the
instrumentation engine, embedded in the launcher artifact (their exact
content is irrelevant to the claims; the Go tool holding them is not in
the repository sources). -/
def launchParams : List Char := "pin -t FuncTracer.so --".data

/-- Modelled from the spec: the launcher part of a wrapped artifact,
embedding (a) the fixed signature and (b) the engine invocation
parameters; the stash (c) follows it. -/
def launcherHeader : List Char := wrapperSignature ++ '\n' :: launchParams ++ ['\n']

/-- The four magic bytes of an ELF executable, checked by the e2e test
after unwrap (tests/e2e/test_calc.py, lines 194-196). -/
def elfMagic : List Char := ['\x7f', 'E', 'L', 'F']

/-- Recognizable native-executable header (the test target format is ELF). -/
def isElfHeader (b : List Char) : Bool := isPrefixB elfMagic b

inductive WrapError where
  | alreadyWrapped
  | unsupportedFormat
deriving DecidableEq

inductive UnwrapError where
  | notWrapped
deriving DecidableEq

/-- Modelled from the spec (section 4.2): `wrap` fails with
`AlreadyWrapped` when the signature is already present, with
`UnsupportedFormat` when the header is not a recognizable
native-executable header, and otherwise replaces the content with a
launcher artifact embedding the signature, the engine parameters and the
stashed original bytes. -/
def wrap (b : List Char) : Except WrapError (List Char) :=
  if containsSub wrapperSignature b then .error .alreadyWrapped
  else if !isElfHeader b then .error .unsupportedFormat
  else .ok (launcherHeader ++ b)

/-- Modelled from the spec (section 4.2): `unwrap` validates the wrapped
state via the signature-carrying launcher header and restores exactly
the stashed original bytes; it fails with `NotWrapped` otherwise. -/
def unwrap (c : List Char) : Except UnwrapError (List Char) :=
  if isPrefixB launcherHeader c then .ok (c.drop launcherHeader.length)
  else .error .notWrapped

/-! ## Python text helpers used by tests/e2e/test_calc.py -/

/-- Whitespace as recognized by Python str.strip, str.split and the
regex class backslash-s, restricted to the ASCII range: all data the
repository handles is ASCII apart from the two report marker glyphs,
which are not whitespace. -/
def isPySpace (c : Char) : Bool :=
  c == ' ' || c == '\t' || c == '\n' || c == '\r' || c == '\x0b' || c == '\x0c'

/-- Python str.strip with no argument: remove leading and trailing
whitespace. -/
def pyStrip (cs : List Char) : List Char :=
  ((cs.dropWhile isPySpace).reverse.dropWhile isPySpace).reverse

def pySplitlinesAux : List Char → List Char → List (List Char)
  | acc, [] => if acc = [] then [] else [acc.reverse]
  | acc, '\r' :: '\n' :: rest => acc.reverse :: pySplitlinesAux [] rest
  | acc, '\n' :: rest => acc.reverse :: pySplitlinesAux [] rest
  | acc, '\r' :: rest => acc.reverse :: pySplitlinesAux [] rest
  | acc, c :: rest => pySplitlinesAux (c :: acc) rest

/-- Python str.splitlines over the line endings occurring in the data
the repository handles (LF, CR, CRLF); a trailing line break produces no
trailing empty line. -/
def pySplitlines (cs : List Char) : List (List Char) := pySplitlinesAux [] cs

/-- Python dict assignment `m[k] = v`: replace the value in place when
the key is present, append the pair otherwise. -/
def dictSet {K V : Type} [DecidableEq K] : List (K × V) → K → V → List (K × V)
  | [], k, v => [(k, v)]
  | (k', v') :: rest, k, v =>
    if k' = k then (k', v) :: rest else (k', v') :: dictSet rest k v

/-- Python dict.get: the value stored at the key, if any. -/
def dictGet {K V : Type} [DecidableEq K] : List (K × V) → K → Option V
  | [], _ => none
  | (k', v') :: rest, k => if k' = k then some v' else dictGet rest k

def calledStr : List Char := "called".data

def uncalledStr : List Char := "uncalled".data

/-- Embedding of TestCalcE2E.get_coverage_status (tests/e2e/test_calc.py
lines 126-133): fold over the lines of the text body of the passed
element, classifying each stripped line by its leading glyph. -/
def get_coverage_status (text : List Char) : List (List Char × List Char) :=
  (pySplitlines text).foldl
    (fun m line =>
      let l := pyStrip line
      if isPrefixB ['✓'] l then dictSet m (pyStrip (l.drop 1)) calledStr
      else if isPrefixB ['✗'] l then dictSet m (pyStrip (l.drop 1)) uncalledStr
      else m)
    []

/-- The per-line classification as worded by claim C2: a line prefixed
with the called-marker glyph contributes its function name with status
called, a line prefixed with the uncalled-marker glyph contributes
status uncalled, any other line contributes no entry. -/
def lineEntryClaim (line : List Char) : Option (List Char × List Char) :=
  let l := pyStrip line
  if isPrefixB ['✓'] l then some (pyStrip (l.drop 1), calledStr)
  else if isPrefixB ['✗'] l then some (pyStrip (l.drop 1), uncalledStr)
  else none

/-! ## Coverage Aggregator and Report Emitter (spec-modelled) -/

inductive CovStatus where
  | called
  | uncalled
deriving DecidableEq

def covGlyph : CovStatus → Char
  | .called => '✓'
  | .uncalled => '✗'

/-- Modelled from the spec (section 4.4): the Coverage Aggregator of the
funkoverage tool, whose Go sources are not in the repository.  Every
symbol starts uncalled; a symbol observed in any accumulated run log for
the binary becomes called.  Run logs are abstracted to the lists of
resolved function names they record. -/
def aggregateCoverage (symbols : List (List Char))
    (logs : List (List (List Char))) : List (List Char × CovStatus) :=
  symbols.map fun s =>
    (s, if logs.any (fun log => s ∈ log) then .called else .uncalled)

def joinLines : List (List Char) → List Char
  | [] => []
  | [l] => l
  | l :: ls => l ++ '\n' :: joinLines ls

/-- Modelled from the spec (sections 4.5 and 6): the Report Emitter of
the funkoverage tool, whose Go sources are not in the repository; the
XML envelope around the text body is elided.  One line per function in
SymbolSet order, each the called-marker or uncalled-marker glyph
followed by the function name. -/
def emitReportBody (entries : List (List Char × CovStatus)) : List Char :=
  joinLines (entries.map fun e => covGlyph e.2 :: e.1)

/-! ## The calc scenario of the e2e test -/

/-- The functions defined by the calc test binary, in the order of its C
source (SOURCE_CODE in tests/e2e/test_calc.py). -/
def calcSymbols : List (List Char) :=
  ["sum".data, "sub".data, "mult".data, "div_op".data, "main".data]

/-- The functions one execution of the calc binary with three arguments
runs, per its C source in tests/e2e/test_calc.py: main always executes,
and the operator argument selects exactly one arithmetic function. -/
def calcRunLog (op : List Char) : List (List Char) :=
  "main".data ::
    (if op = "+".data then ["sum".data]
     else if op = "-".data then ["sub".data]
     else if op = "*".data then ["mult".data]
     else if op = "/".data then ["div_op".data]
     else [])

/-- The status map the e2e test reads back after the given sequence of
calc executions: spec-modelled aggregation and report emission composed
with the source-embedded parser get_coverage_status. -/
def calcReportStatus (ops : List (List Char)) : List (List Char × List Char) :=
  get_coverage_status (emitReportBody (aggregateCoverage calcSymbols (ops.map calcRunLog)))

/-! ## Report file naming and the e2e command runner -/

/-- Modelled from the spec (section 6): the name of the output file the
report command writes for one binary and one format (the Go tool that
writes it is not in the repository sources; the e2e test expects this
name at tests/e2e/test_calc.py line 56). -/
def reportFileName (bin fmt : List Char) : List Char :=
  "coverage_".data ++ bin ++ '.' :: fmt

/-- Modelled from the spec (section 6): the set of files the report
command writes, one per format per binary observed in the log
directory. -/
def reportFilesWritten (bins fmts : List (List Char)) : List (List Char) :=
  bins.foldr (fun b acc => fmts.map (reportFileName b) ++ acc) []

/-- A completed subprocess, as consumed by TestCalcE2E.run_cmd. -/
structure CmdResult where
  returncode : Int
  stdout : List Char
  stderr : List Char

/-- What TestCalcE2E.run_cmd prints before failing the test on a
non-zero exit code: the command line and the captured stdout and
stderr. -/
structure CmdFailure where
  cmdLine : List Char
  stdout : List Char
  stderr : List Char

def joinSpace : List (List Char) → List Char
  | [] => []
  | [w] => w
  | w :: ws => w ++ ' ' :: joinSpace ws

/-- Embedding of TestCalcE2E.run_cmd (tests/e2e/test_calc.py lines
90-112): the completed subprocess is an input; on a non-zero exit code
the printed diagnostics and the test failure are modelled as the error
value, otherwise the completed-process result is returned unchanged. -/
def runCmdCheck (cmd : List (List Char)) (result : CmdResult) : Except CmdFailure CmdResult :=
  if result.returncode ≠ 0 then
    .error ⟨joinSpace cmd, result.stdout, result.stderr⟩
  else .ok result

/-! ## utils/find_lib.py: find_function_in_libraries

The function runs the external tools ldd and nm; their filesystem and
process outcomes are inputs of the embedding (a FindEnv).  The two
regular expressions of the source are embedded as executable
backtracking matchers over List Char. -/

def isHexDigit (c : Char) : Bool :=
  (('0' ≤ c) && (c ≤ '9')) || (('a' ≤ c) && (c ≤ 'f')) || (('A' ≤ c) && (c ≤ 'F'))

/-- Matcher for the nm regex, tail part: the literal function name
followed by a line end (dollar anchor with re.MULTILINE: end of input or
a following newline). -/
def nameAtLineEnd : List Char → List Char → Bool
  | [], [] => true
  | c :: _, [] => c == '\n'
  | [], _ :: _ => false
  | c :: cs, n :: ns => c == n && nameAtLineEnd cs ns

/-- One or more whitespace characters, then the name at a line end
(backtracking: the name may be tried after every nonempty whitespace
prefix). -/
def spacesThenName : List Char → List Char → Bool
  | [], _ => false
  | c :: cs, name => isPySpace c && (nameAtLineEnd cs name || spacesThenName cs name)

/-- The symbol-type letter T or W, then whitespace and the name. -/
def twThenName : List Char → List Char → Bool
  | [], _ => false
  | c :: cs, name => (c == 'T' || c == 'W') && spacesThenName cs name

/-- One or more whitespace characters, then the T or W part. -/
def spacesThenTw : List Char → List Char → Bool
  | [], _ => false
  | c :: cs, name => isPySpace c && (twThenName cs name || spacesThenTw cs name)

/-- One or more hex digits from a caret anchor, then the rest of the
pattern. -/
def hexThenRest : List Char → List Char → Bool
  | [], _ => false
  | c :: cs, name => isHexDigit c && (spacesThenTw cs name || hexThenRest cs name)

/-- Scan for the remaining caret anchors of re.MULTILINE: a position
right after each newline. -/
def searchNextLines : List Char → List Char → Bool
  | [], _ => false
  | c :: cs, name => (c == '\n' && hexThenRest cs name) || searchNextLines cs name

/-- Embedding of the re.search in find_function_in_libraries (line 106
of utils/find_lib.py) for the pattern of line 104: one or more hex
digits, whitespace, T or W, whitespace, the escaped function name,
between a caret and a dollar anchor under re.MULTILINE. -/
def nmSearch (out name : List Char) : Bool :=
  hexThenRest out name || searchNextLines out name

/-- Matcher for the tail of the ldd regex: one or more hex digits
followed by a closing parenthesis (prefix of the remaining input). -/
def parenTail : List Char → Bool
  | [] => false
  | c :: t =>
    isHexDigit c && ((match t with | ')' :: _ => true | _ => false) || parenTail t)

/-- Matcher for the literal open parenthesis, 0, x, hex digits and
closing parenthesis of the ldd regex (prefix of the remaining input). -/
def parenHex : List Char → Bool
  | '(' :: '0' :: 'x' :: t => parenTail t
  | _ => false

/-- Backtracking over the captured non-whitespace run of the ldd regex:
the engine keeps the longest capture whose remainder still matches
optional whitespace and the parenthesized hex load address.  The first
argument is the reversed candidate capture, the second the characters
already given back. -/
def capSearch : List Char → List Char → List Char → Option (List Char)
  | [], _, _ => none
  | c :: cr, suf, rest =>
    if (if suf.isEmpty then parenHex (rest.dropWhile isPySpace) else parenHex (suf ++ rest))
    then some (c :: cr).reverse
    else capSearch cr (c :: suf) rest

/-- After the literal arrow of the ldd regex: optional whitespace, the
captured non-whitespace run, optional whitespace, the parenthesized hex
load address. -/
def afterArrow (cs : List Char) : Option (List Char) :=
  let cs1 := cs.dropWhile isPySpace
  let run := cs1.takeWhile (fun c => !isPySpace c)
  let rest := cs1.dropWhile (fun c => !isPySpace c)
  capSearch run.reverse [] rest

/-- Embedding of the re.search on an ldd output line (line 66 of
utils/find_lib.py): leftmost occurrence of the arrow pattern, returning
capture group 1. -/
def lddSearch : List Char → Option (List Char)
  | [] => none
  | '=' :: t =>
    (match t with
     | '>' :: t2 =>
       (match afterArrow t2 with
        | some cap => some cap
        | none => lddSearch t)
     | _ => lddSearch t)
  | _ :: t => lddSearch t

def pySplitAux : List Char → List Char → List (List Char)
  | acc, [] => if acc = [] then [] else [acc.reverse]
  | acc, c :: rest =>
    if isPySpace c then
      (if acc = [] then pySplitAux [] rest else acc.reverse :: pySplitAux [] rest)
    else pySplitAux (c :: acc) rest

/-- Python str.split with no argument: split on whitespace runs,
dropping empty fields. -/
def pySplit (cs : List Char) : List (List Char) := pySplitAux [] cs

/-- The fallback parse of an ldd output line (lines 71-73 of
utils/find_lib.py), for the dynamic-linker line with no arrow. -/
def lddFallback (line : List Char) : Option (List Char) :=
  match pySplit (pyStrip line) with
  | p0 :: p1 :: _ =>
    if isPrefixB ['/'] p0 && containsSub ".so".data p0 && isPrefixB "(0x".data p1
    then some p0 else none
  | _ => none

/-- The library path extracted from one ldd output line (lines 64-73 of
utils/find_lib.py): the regex capture when the arrow pattern matches,
the fallback parse otherwise. -/
def libPathOfLine (line : List Char) : Option (List Char) :=
  match lddSearch line with
  | some cap => some cap
  | none => lddFallback line

/-- Outcome of running one external tool (ldd): the tool binary may be
missing, the call may fail, or it succeeds with its stdout. -/
inductive ToolResult where
  | toolMissing
  | callFailed
  | ok (out : List Char)

/-- The filesystem and process environment find_function_in_libraries
runs against. nm returning none covers both a missing nm binary and a
failing nm call, which the source skips alike. -/
structure FindEnv where
  pathExists : Bool
  pathIsFile : Bool
  executable : Bool
  ldd : ToolResult
  fileExists : List Char → Bool
  realpath : List Char → List Char
  nm : List Char → Option (List Char)

/-- Python set.add on the model of a string set: a duplicate-free list
(iteration order is irrelevant because the source sorts before use). -/
def setInsert (acc : List (List Char)) (p : List Char) : List (List Char) :=
  if p ∈ acc then acc else acc ++ [p]

/-- Step 3 of find_function_in_libraries (lines 56-78 of
utils/find_lib.py): collect, over the ldd output lines, the set of
symlink-resolved paths of the extracted, existing, non-vdso library
files. -/
def collectLibraryPaths (env : FindEnv) (lines : List (List Char)) : List (List Char) :=
  lines.foldl
    (fun acc line =>
      match libPathOfLine line with
      | some lp =>
        if !lp.isEmpty && env.fileExists lp && !containsSub "linux-vdso.so".data lp
        then setInsert acc (env.realpath lp)
        else acc
      | none => acc)
    []

/-- Lexicographic comparison of paths by code point, as Python sorted
uses on str. -/
def charListLe : List Char → List Char → Bool
  | [], _ => true
  | _ :: _, [] => false
  | a :: as, b :: bs => if a < b then true else if b < a then false else charListLe as bs

def leLibPath (a b : List Char) : Prop := charListLe a b = true

instance : DecidableRel leLibPath :=
  fun a b => inferInstanceAs (Decidable (charListLe a b = true))

/-- Step 4 of find_function_in_libraries (lines 87-120 of
utils/find_lib.py): run nm on each library in sorted order, stop at the
first whose dynamic symbols match the function pattern; record which
libraries nm was attempted on. -/
def scanLibraries (env : FindEnv) (fname : List Char) :
    List (List Char) → Option (List Char) × List (List Char)
  | [] => (none, [])
  | l :: rest =>
    match env.nm l with
    | some out =>
      if nmSearch out fname then (some l, [l])
      else ((scanLibraries env fname rest).1, l :: (scanLibraries env fname rest).2)
    | none => ((scanLibraries env fname rest).1, l :: (scanLibraries env fname rest).2)

inductive FindResult where
  | errNotFound
  | errNotFile
  | errLddMissing
  | errLddFailed
  | noLibraries
  | success (lib : List Char)
  | notFoundInLibs
deriving DecidableEq

/-- Observable outcome of one run of find_function_in_libraries: the
printed verdict class, whether ldd was invoked, which libraries nm was
invoked on, whether the not-executable warning was printed, and the
sorted unique library list of step 4. -/
structure FindRun where
  result : FindResult
  calledLdd : Bool
  nmCalls : List (List Char)
  warnedNotExec : Bool
  libraries : List (List Char)
deriving DecidableEq

/-- Embedding of find_function_in_libraries (utils/find_lib.py lines
16-129): validate the binary path, run ldd, collect the unique existing
library real paths, then scan them in sorted order with nm. -/
def find_function_in_libraries (env : FindEnv) (fname : List Char) : FindRun :=
  if !env.pathExists then ⟨.errNotFound, false, [], false, []⟩
  else if !env.pathIsFile then ⟨.errNotFile, false, [], false, []⟩
  else
    let warned := !env.executable
    match env.ldd with
    | .toolMissing => ⟨.errLddMissing, true, [], warned, []⟩
    | .callFailed => ⟨.errLddFailed, true, [], warned, []⟩
    | .ok out =>
      let libs := collectLibraryPaths env (pySplitlines out)
      if libs.isEmpty then ⟨.noLibraries, true, [], warned, []⟩
      else
        let sortedLibs := List.insertionSort leLibPath libs
        let scan := scanLibraries env fname sortedLibs
        match scan.1 with
        | some l => ⟨.success l, true, scan.2, warned, sortedLibs⟩
        | none => ⟨.notFoundInLibs, true, scan.2, warned, sortedLibs⟩

/-- Did the scan of step 4 find the function in this library: nm
succeeded on it and its output matches the function pattern. -/
def nmMatches (env : FindEnv) (fname p : List Char) : Bool :=
  match env.nm p with
  | some out => nmSearch out fname
  | none => false

/-! ## Model of the external nm -D output consumed by find_lib.py

The source reads nm -D stdout as text; the text is the rendering of the
dynamic symbol table, one symbol per line, in the format the source
itself documents at utils/find_lib.py line 98 (address, type letter,
name); undefined symbols carry a blank address field. -/

/-- One line of nm -D output: optional hex address, one type letter, the
symbol name. -/
structure NmSymbol where
  addr : Option (List Char)
  styp : Char
  sname : List Char
deriving DecidableEq

def renderNmSymbol (s : NmSymbol) : List Char :=
  match s.addr with
  | some a => a ++ ' ' :: s.styp :: ' ' :: s.sname
  | none => List.replicate 17 ' ' ++ s.styp :: ' ' :: s.sname

/-- nm -D stdout: one rendered line per symbol, each newline
terminated. -/
def renderNmTable : List NmSymbol → List Char
  | [] => []
  | s :: rest => renderNmSymbol s ++ '\n' :: renderNmTable rest

/-- A plausible symbol name: nonempty, no whitespace characters. -/
def goodName (n : List Char) : Bool := !n.isEmpty && n.all (fun c => !isPySpace c)

/-- Well-formedness of one nm output line: plausible name, a type letter
that is not whitespace, a nonempty hex address when present. -/
def symWellFormed (s : NmSymbol) : Bool :=
  goodName s.sname && !isPySpace s.styp &&
    (match s.addr with
     | some a => !a.isEmpty && a.all isHexDigit
     | none => true)

def tableWellFormed (t : List NmSymbol) : Bool := t.all symWellFormed

/-- The line property claim C8 states: the exact function name appears
as a defined (addressed) symbol of type T or W. -/
def definesSym (fname : List Char) (s : NmSymbol) : Bool :=
  (s.styp == 'T' || s.styp == 'W') && s.sname == fname && s.addr.isSome

/-- The dynamic symbol table contains a line defining the function. -/
def tableDefines (t : List NmSymbol) (fname : List Char) : Bool :=
  t.any (definesSym fname)

/-- The property claim C10 states of each collected library path: some
ldd output line parses to an extracted path that is a nonempty, existing,
non-vdso file whose resolved real path is the collected one. -/
def pathExplained (env : FindEnv) (lines : List (List Char)) (p : List Char) : Bool :=
  lines.any fun line =>
    match libPathOfLine line with
    | some lp =>
      !lp.isEmpty && env.fileExists lp && !containsSub "linux-vdso.so".data lp
        && p == env.realpath lp
    | none => false

/-! ## Concrete environments used by the witnesses -/

/-- An environment whose binary path does not exist. -/
def envMissingPath : FindEnv :=
  ⟨false, false, true, .ok [], fun _ => true, id, fun _ => none⟩

def nmTableA : List NmSymbol := [⟨some "0000000000080ed0".data, 'T', "fopen".data⟩]

def nmTableZ : List NmSymbol :=
  [⟨none, 'U', "printf".data⟩, ⟨some "1a2b".data, 'W', "fopen".data⟩]

def demoTables (p : List Char) : Option (List NmSymbol) :=
  if p = "/lib/liba.so".data then some nmTableA
  else if p = "/lib/libz.so".data then some nmTableZ
  else none

def demoLddOut : List Char :=
  "\tliba.so => /lib/liba.so (0x00007f12)\n\tlibz.so => /lib/libz.so (0x00007f34)\n".data

/-- An environment in which ldd lists two libraries and both define
fopen as a dynamic T or W symbol. -/
def demoEnv : FindEnv :=
  { pathExists := true, pathIsFile := true, executable := true,
    ldd := .ok demoLddOut,
    fileExists := fun _ => true, realpath := id,
    nm := fun p => (demoTables p).map renderNmTable }

theorem isPrefixB_self_append (n rest : List Char) : isPrefixB n (n ++ rest) = true := by
  induction n with
  | nil => rfl
  | cons c t ih => simp [isPrefixB, ih]

theorem containsSub_self_append (n rest : List Char) : containsSub n (n ++ rest) = true := by
  cases h : n ++ rest with
  | nil => cases n <;> simp_all [containsSub, isPrefixB]
  | cons c t => simp [containsSub, ← h, isPrefixB_self_append]

theorem unwrap_wrap_eq {b w : List Char} (h : wrap b = .ok w) : unwrap w = .ok b := by
  unfold wrap at h
  split at h
  · exact absurd h (by simp)
  · split at h
    · exact absurd h (by simp)
    · cases h
      unfold unwrap
      rw [if_pos (isPrefixB_self_append _ _)]
      simp

/-- Claim C1: round-trip: for every binary B on which wrap succeeds,
unwrap of the wrapped artifact restores the content byte-identical to B;
in particular the restored leading bytes are again the original header,
and for an ELF input the first 4 restored bytes are \x7f E L F. -/
theorem claim1_roundtrip (b w : List Char) (h : wrap b = .ok w) :
    unwrap w = .ok b ∧
    (∀ b', unwrap w = .ok b' → b'.take 4 = b.take 4) ∧
    (b.take 4 = elfMagic → ∀ b', unwrap w = .ok b' → b'.take 4 = elfMagic) := by
  refine ⟨unwrap_wrap_eq h, ?_, ?_⟩
  · intro b' h'
    rw [unwrap_wrap_eq h] at h'
    cases h'
    rfl
  · intro helf b' h'
    rw [unwrap_wrap_eq h] at h'
    cases h'
    exact helf

/-- Concrete instantiation of claim C1 on a 5-byte ELF input. -/
theorem claim1_roundtrip_witness :
    unwrap (launcherHeader ++ ['\x7f', 'E', 'L', 'F', 'A']) = .ok ['\x7f', 'E', 'L', 'F', 'A'] :=
  (claim1_roundtrip ['\x7f', 'E', 'L', 'F', 'A'] (launcherHeader ++ ['\x7f', 'E', 'L', 'F', 'A'])
    rfl).1

theorem wrap_ok_shape {b w : List Char} (h : wrap b = .ok w) :
    containsSub wrapperSignature b = false ∧ w = launcherHeader ++ b := by
  unfold wrap at h
  split at h
  · exact absurd h (by simp)
  · split at h
    · exact absurd h (by simp)
    · cases h
      exact ⟨by simp_all, rfl⟩

/-- Claim C5: wrap signature invariant: after a successful wrap the
content contains the fixed ASCII signature string, and after a
successful unwrap of that artifact the content no longer contains it. -/
theorem claim5_signature_invariant (b w : List Char) (h : wrap b = .ok w) :
    containsSub wrapperSignature w = true ∧
    (∀ b', unwrap w = .ok b' → containsSub wrapperSignature b' = false) := by
  obtain ⟨hno, hw⟩ := wrap_ok_shape h
  constructor
  · subst hw
    show containsSub wrapperSignature ((wrapperSignature ++ ('\n' :: launchParams ++ ['\n'])) ++ b) = true
    rw [List.append_assoc]
    exact containsSub_self_append _ _
  · intro b' h'
    rw [unwrap_wrap_eq h] at h'
    cases h'
    exact hno

/-- Concrete instantiation of claim C5 on a 5-byte ELF input. -/
theorem claim5_signature_invariant_witness :
    containsSub wrapperSignature (launcherHeader ++ ['\x7f', 'E', 'L', 'F', 'B']) = true :=
  (claim5_signature_invariant ['\x7f', 'E', 'L', 'F', 'B']
    (launcherHeader ++ ['\x7f', 'E', 'L', 'F', 'B']) rfl).1

theorem foldl_classified {α β γ : Type} (f : α → Option β) (g : γ → β → γ)
    (step : γ → α → γ)
    (hstep : ∀ m a, step m a = match f a with | some b => g m b | none => m) :
    ∀ (l : List α) (m : γ), l.foldl step m = (l.filterMap f).foldl g m := by
  intro l
  induction l with
  | nil => intro m; rfl
  | cons a rest ih =>
    intro m
    rw [List.foldl_cons, List.filterMap_cons, hstep]
    cases hf : f a with
    | none => exact ih m
    | some b => rw [List.foldl_cons]; exact ih (g m b)

/-- Claim C2: parsing the XML report text body line by line yields, for
each line prefixed with the called-marker glyph, the status called for
the function name on it; for each line prefixed with the uncalled-marker
glyph, the status uncalled; and a line beginning with neither glyph
contributes no entry to the resulting status map. -/
theorem claim2_report_parsing (text : List Char) :
    get_coverage_status text
      = ((pySplitlines text).filterMap lineEntryClaim).foldl
          (fun m e => dictSet m e.1 e.2) [] := by
  refine foldl_classified lineEntryClaim _ _ ?_ (pySplitlines text) []
  intro m a
  show _ = _
  simp only [lineEntryClaim]
  by_cases h1 : isPrefixB ['✓'] (pyStrip a) = true
  · simp [h1]
  · by_cases h2 : isPrefixB ['✗'] (pyStrip a) = true
    · simp [h1, h2]
    · simp [h1, h2]

/-- Claim C3: after wrapping the calc binary and executing it once with
operator +, the generated report shows sum called and sub, mult and
div_op uncalled. -/
theorem claim3_first_run :
    dictGet (calcReportStatus ["+".data]) "sum".data = some calledStr ∧
    dictGet (calcReportStatus ["+".data]) "sub".data = some uncalledStr ∧
    dictGet (calcReportStatus ["+".data]) "mult".data = some uncalledStr ∧
    dictGet (calcReportStatus ["+".data]) "div_op".data = some uncalledStr := by
  refine ⟨?_, ?_, ?_, ?_⟩ <;> rfl

/-- Claim C4: monotonic coverage: a function reported called from the
accumulated run logs stays called in every report regenerated over the
same uncleared logs; concretely, after the second execution with
operator -, sum and sub are called while mult and div_op stay
uncalled. -/
theorem claim4_monotonic :
    (∀ (syms : List (List Char)) (logs logs' : List (List (List Char))) (f : List Char),
        dictGet (aggregateCoverage syms logs) f = some .called →
        dictGet (aggregateCoverage syms (logs ++ logs')) f = some .called) ∧
    (dictGet (calcReportStatus ["+".data, "-".data]) "sum".data = some calledStr ∧
     dictGet (calcReportStatus ["+".data, "-".data]) "sub".data = some calledStr ∧
     dictGet (calcReportStatus ["+".data, "-".data]) "mult".data = some uncalledStr ∧
     dictGet (calcReportStatus ["+".data, "-".data]) "div_op".data = some uncalledStr) := by
  constructor
  · intro syms logs logs' f h
    induction syms with
    | nil => exact absurd h (by simp [aggregateCoverage, dictGet])
    | cons s rest ih =>
      simp only [aggregateCoverage, List.map_cons, dictGet] at h ⊢
      by_cases hs : s = f
      · rw [if_pos hs] at h ⊢
        by_cases hc : logs.any (fun log => decide (s ∈ log)) = true
        · rw [List.any_append, hc]
          simp
        · simp [hc] at h
      · rw [if_neg hs] at h ⊢
        exact ih h
  · refine ⟨?_, ?_, ?_, ?_⟩ <;> rfl

/-- Concrete instantiation of the monotonicity part of claim C4: sum,
called after the first run, is still called once the second run log is
appended. -/
theorem claim4_monotonic_witness :
    dictGet (aggregateCoverage calcSymbols ([calcRunLog "+".data] ++ [calcRunLog "-".data]))
      "sum".data = some .called :=
  claim4_monotonic.1 calcSymbols [calcRunLog "+".data] [calcRunLog "-".data] "sum".data rfl

/-- Claim C6: the report command writes, for each binary observed in the
log directory and each requested format, one file named
coverage_<binary_name>.<fmt>; for binary calc and format xml this is
coverage_calc.xml. -/
theorem claim6_report_naming :
    (∀ (bins fmts : List (List Char)) (b f : List Char),
        b ∈ bins → f ∈ fmts → reportFileName b f ∈ reportFilesWritten bins fmts) ∧
    reportFileName "calc".data "xml".data = "coverage_calc.xml".data := by
  constructor
  · intro bins fmts b f hb hf
    induction bins with
    | nil => cases hb
    | cons b' rest ih =>
      rw [List.mem_cons] at hb
      cases hb with
      | inl h =>
        subst h
        exact List.mem_append_left _ (List.mem_map_of_mem _ hf)
      | inr h =>
        exact List.mem_append_right _ (ih h)
  · rfl

/-- Concrete instantiation of claim C6: reporting the one binary calc in
the one format xml writes exactly the file coverage_calc.xml. -/
theorem claim6_report_naming_witness :
    reportFileName "calc".data "xml".data ∈ reportFilesWritten ["calc".data] ["xml".data] :=
  claim6_report_naming.1 ["calc".data] ["xml".data] "calc".data "xml".data
    (by decide) (by decide)

/-- Claim C7: run_cmd returns the completed-process result exactly when
the exit code is 0; for every non-zero exit code it fails the test after
printing the command line, its stdout and its stderr. -/
theorem claim7_exit_code_contract (cmd : List (List Char)) (r : CmdResult) :
    (runCmdCheck cmd r = .ok r ↔ r.returncode = 0) ∧
    (∀ e, runCmdCheck cmd r = .error e →
      r.returncode ≠ 0 ∧ e.cmdLine = joinSpace cmd ∧
      e.stdout = r.stdout ∧ e.stderr = r.stderr) := by
  constructor
  · constructor
    · intro h
      by_contra hne
      simp [runCmdCheck, hne] at h
    · intro h
      simp [runCmdCheck, h]
  · intro e he
    by_cases h : r.returncode = 0
    · simp [runCmdCheck, h] at he
    · simp only [runCmdCheck, if_pos h] at he
      cases he
      exact ⟨h, rfl, rfl, rfl⟩

/-- Concrete instantiation of claim C7: a successful wrap invocation
(exit code 0) returns its completed-process result. -/
theorem claim7_exit_code_contract_witness :
    runCmdCheck ["funkoverage".data, "wrap".data, "calc".data] ⟨0, [], []⟩
      = .ok ⟨0, [], []⟩ :=
  (claim7_exit_code_contract ["funkoverage".data, "wrap".data, "calc".data]
    ⟨0, [], []⟩).1.mpr rfl

/-- Claim C9: a missing or non-regular binary path returns early, before
ldd or nm is invoked; an existing regular file that is not executable
only triggers the warning and the search proceeds to ldd. -/
theorem claim9_path_validation (env : FindEnv) (fname : List Char) :
    ((env.pathExists = false ∨ env.pathIsFile = false) →
      (find_function_in_libraries env fname).calledLdd = false ∧
      (find_function_in_libraries env fname).nmCalls = [] ∧
      ((find_function_in_libraries env fname).result = .errNotFound ∨
        (find_function_in_libraries env fname).result = .errNotFile)) ∧
    (env.pathExists = true → env.pathIsFile = true → env.executable = false →
      (find_function_in_libraries env fname).warnedNotExec = true ∧
      (find_function_in_libraries env fname).calledLdd = true) := by
  constructor
  · intro h
    cases hpe : env.pathExists with
    | false => simp [find_function_in_libraries, hpe]
    | true =>
      cases hpf : env.pathIsFile with
      | false => simp [find_function_in_libraries, hpe, hpf]
      | true => simp [hpe, hpf] at h
  · intro h1 h2 h3
    simp only [find_function_in_libraries, h1, h2, h3, Bool.not_true, Bool.not_false]
    cases env.ldd with
    | toolMissing => simp
    | callFailed => simp
    | ok out =>
      by_cases hl : (collectLibraryPaths env (pySplitlines out)).isEmpty = true
      · simp [hl]
      · simp only [Bool.not_eq_true] at hl
        cases hscan : (scanLibraries env fname
            (List.insertionSort leLibPath (collectLibraryPaths env (pySplitlines out)))).1 with
        | none => simp [hl, hscan]
        | some l => simp [hl, hscan]

/-- Concrete instantiation of claim C9 on an environment whose binary
path is missing. -/
theorem claim9_path_validation_witness :
    (find_function_in_libraries envMissingPath "fopen".data).calledLdd = false ∧
    (find_function_in_libraries envMissingPath "fopen".data).nmCalls = [] ∧
    ((find_function_in_libraries envMissingPath "fopen".data).result = .errNotFound ∨
      (find_function_in_libraries envMissingPath "fopen".data).result = .errNotFile) :=
  (claim9_path_validation envMissingPath "fopen".data).1 (Or.inl rfl)

theorem setInsert_mem {acc : List (List Char)} {p x : List Char}
    (h : p ∈ setInsert acc x) : p ∈ acc ∨ p = x := by
  unfold setInsert at h
  split at h
  · exact Or.inl h
  · rcases List.mem_append.mp h with h' | h'
    · exact Or.inl h'
    · exact Or.inr (List.mem_singleton.mp h')

theorem setInsert_nodup {acc : List (List Char)} {x : List Char}
    (h : acc.Nodup) : (setInsert acc x).Nodup := by
  unfold setInsert
  split
  · exact h
  · next hx =>
    refine List.nodup_append.mpr ⟨h, List.nodup_singleton x, ?_⟩
    intro a ha hax
    rw [List.mem_singleton.mp hax] at ha
    exact hx ha

theorem collectLibraryPaths_foldl_mem (env : FindEnv) :
    ∀ (ls : List (List Char)) (acc : List (List Char)) (p : List Char),
      p ∈ ls.foldl
        (fun acc line =>
          match libPathOfLine line with
          | some lp =>
            if !lp.isEmpty && env.fileExists lp && !containsSub "linux-vdso.so".data lp
            then setInsert acc (env.realpath lp)
            else acc
          | none => acc) acc →
      p ∈ acc ∨ ∃ line ∈ ls,
        (match libPathOfLine line with
         | some lp =>
           !lp.isEmpty && env.fileExists lp && !containsSub "linux-vdso.so".data lp
             && p == env.realpath lp
         | none => false) = true := by
  intro ls
  induction ls with
  | nil => intro acc p h; exact Or.inl h
  | cons line rest ih =>
    intro acc p h
    rw [List.foldl_cons] at h
    rcases ih _ p h with h' | ⟨l', hl', he⟩
    · cases hline : libPathOfLine line with
      | none => simp only [hline] at h'; exact Or.inl h'
      | some lp =>
        by_cases hc : (!lp.isEmpty && env.fileExists lp
            && !containsSub "linux-vdso.so".data lp) = true
        · simp only [hline, hc, if_true] at h'
          rcases setInsert_mem h' with h'' | h''
          · exact Or.inl h''
          · refine Or.inr ⟨line, List.mem_cons_self .., ?_⟩
            rw [hline]
            simp [hc, h'']
        · rw [Bool.not_eq_true] at hc
          simp only [hline, hc, Bool.false_eq_true, if_false] at h'
          exact Or.inl h'
    · exact Or.inr ⟨l', List.mem_cons_of_mem _ hl', he⟩

theorem collectLibraryPaths_foldl_nodup (env : FindEnv) :
    ∀ (ls : List (List Char)) (acc : List (List Char)),
      acc.Nodup →
      (ls.foldl
        (fun acc line =>
          match libPathOfLine line with
          | some lp =>
            if !lp.isEmpty && env.fileExists lp && !containsSub "linux-vdso.so".data lp
            then setInsert acc (env.realpath lp)
            else acc
          | none => acc) acc).Nodup := by
  intro ls
  induction ls with
  | nil => intro acc h; exact h
  | cons line rest ih =>
    intro acc h
    rw [List.foldl_cons]
    refine ih _ ?_
    split
    · split
      · exact setInsert_nodup h
      · exact h
    · exact h

theorem collectLibraryPaths_nodup (env : FindEnv) (lines : List (List Char)) :
    (collectLibraryPaths env lines).Nodup :=
  collectLibraryPaths_foldl_nodup env lines [] List.nodup_nil

theorem find_libraries_nodup (env : FindEnv) (fname : List Char) :
    (find_function_in_libraries env fname).libraries.Nodup := by
  unfold find_function_in_libraries
  cases env.pathExists with
  | false => exact List.nodup_nil
  | true =>
    cases env.pathIsFile with
    | false => exact List.nodup_nil
    | true =>
      simp only [Bool.not_true, Bool.not_false]
      cases env.ldd with
      | toolMissing => exact List.nodup_nil
      | callFailed => exact List.nodup_nil
      | ok out =>
        by_cases hl : (collectLibraryPaths env (pySplitlines out)).isEmpty = true
        · simp [hl]
        · simp only [Bool.not_eq_true] at hl
          have hnd : (List.insertionSort leLibPath
              (collectLibraryPaths env (pySplitlines out))).Nodup :=
            (List.perm_insertionSort leLibPath _).nodup_iff.mpr
              (collectLibraryPaths_nodup env (pySplitlines out))
          cases hscan : (scanLibraries env fname
              (List.insertionSort leLibPath (collectLibraryPaths env (pySplitlines out)))).1 with
          | none => simp [hl, hscan, hnd]
          | some l => simp [hl, hscan, hnd]

/-- Claim C10: every path collected into the library set comes from an
ldd output line whose extracted path is a nonempty, existing, non-vdso
file, resolved through realpath; the collection is duplicate-free, so
each real library file enters the sorted scan list of step 4 at most
once. -/
theorem claim10_library_collection (env : FindEnv) (lines : List (List Char))
    (fname : List Char) :
    (∀ p ∈ collectLibraryPaths env lines, pathExplained env lines p = true) ∧
    (collectLibraryPaths env lines).Nodup ∧
    (find_function_in_libraries env fname).libraries.Nodup := by
  refine ⟨?_, collectLibraryPaths_nodup env lines, find_libraries_nodup env fname⟩
  intro p hp
  rcases collectLibraryPaths_foldl_mem env lines [] p hp with h | ⟨line, hline, he⟩
  · cases h
  · exact List.any_eq_true.mpr ⟨line, hline, he⟩

/-- Concrete instantiation of claim C10: the libc path collected from a
concrete ldd line is explained by that line. -/
theorem claim10_library_collection_witness :
    pathExplained demoEnv (pySplitlines demoLddOut) "/lib/liba.so".data = true :=
  (claim10_library_collection demoEnv (pySplitlines demoLddOut) "fopen".data).1
    "/lib/liba.so".data (by decide)

theorem charListLe_refl (a : List Char) : charListLe a a = true := by
  induction a with
  | nil => rfl
  | cons c t ih => simp [charListLe, ih]

theorem charListLe_total : ∀ a b : List Char, charListLe a b = true ∨ charListLe b a = true := by
  intro a
  induction a with
  | nil => intro b; exact Or.inl rfl
  | cons c t ih =>
    intro b
    cases b with
    | nil => exact Or.inr rfl
    | cons d s =>
      rcases lt_trichotomy c d with h | h | h
      · exact Or.inl (by simp [charListLe, h])
      · subst h
        rcases ih s with h2 | h2
        · exact Or.inl (by simp [charListLe, h2])
        · exact Or.inr (by simp [charListLe, h2])
      · exact Or.inr (by simp [charListLe, h])

theorem charListLe_trans : ∀ a b c : List Char,
    charListLe a b = true → charListLe b c = true → charListLe a c = true := by
  intro a
  induction a with
  | nil => intro b c _ _; rfl
  | cons x xs ih =>
    intro b c hab hbc
    cases b with
    | nil => simp [charListLe] at hab
    | cons y ys =>
      cases c with
      | nil => simp [charListLe] at hbc
      | cons z zs =>
        rcases lt_trichotomy x y with h1 | h1 | h1
        · rcases lt_trichotomy y z with h2 | h2 | h2
          · simp [charListLe, lt_trans h1 h2]
          · subst h2; simp [charListLe, h1]
          · simp [charListLe, h2, h2.asymm] at hbc
        · subst h1
          rcases lt_trichotomy x z with h2 | h2 | h2
          · simp [charListLe, h2]
          · subst h2
            simp only [charListLe, lt_self_iff_false, if_false] at hab hbc ⊢
            exact ih ys zs hab hbc
          · simp [charListLe, h2, h2.asymm] at hbc
        · simp [charListLe, h1, h1.asymm] at hab

instance : IsTotal (List Char) leLibPath := ⟨charListLe_total⟩

instance : IsTrans (List Char) leLibPath :=
  ⟨fun a b c hab hbc => charListLe_trans a b c hab hbc⟩

theorem scanLibraries_success (env : FindEnv) (fname : List Char) :
    ∀ (libs : List (List Char)) (l : List Char),
      List.Sorted leLibPath libs →
      (scanLibraries env fname libs).1 = some l →
      l ∈ libs ∧ nmMatches env fname l = true ∧
      ∀ p ∈ libs, nmMatches env fname p = true → charListLe l p = true := by
  intro libs
  induction libs with
  | nil => intro l _ h; simp [scanLibraries] at h
  | cons x rest ih =>
    intro l hs h
    have hs' := List.sorted_cons.mp hs
    cases hnm : env.nm x with
    | some out =>
      simp only [scanLibraries, hnm] at h
      by_cases hm : nmSearch out fname = true
      · rw [if_pos hm] at h
        have hlx : x = l := by simpa using h
        subst hlx
        refine ⟨List.mem_cons_self .., by simp [nmMatches, hnm, hm], ?_⟩
        intro p hp _
        rcases List.mem_cons.mp hp with rfl | hp'
        · exact charListLe_refl _
        · exact hs'.1 p hp'
      · rw [if_neg hm] at h
        obtain ⟨h1, h2, h3⟩ := ih l hs'.2 h
        refine ⟨List.mem_cons_of_mem _ h1, h2, ?_⟩
        intro p hp hpm
        rcases List.mem_cons.mp hp with rfl | hp'
        · rw [nmMatches, hnm] at hpm
          exact absurd hpm hm
        · exact h3 p hp' hpm
    | none =>
      simp only [scanLibraries, hnm] at h
      obtain ⟨h1, h2, h3⟩ := ih l hs'.2 h
      refine ⟨List.mem_cons_of_mem _ h1, h2, ?_⟩
      intro p hp hpm
      rcases List.mem_cons.mp hp with rfl | hp'
      · rw [nmMatches, hnm] at hpm
        exact absurd hpm (by simp)
      · exact h3 p hp' hpm

theorem notSpace_ne_newline {c : Char} (h : isPySpace c = false) : c ≠ '\n' := by
  intro he
  subst he
  exact absurd h (by decide)

theorem hex_not_pySpace {c : Char} (h : isHexDigit c = true) : isPySpace c = false := by
  cases hs : isPySpace c
  · rfl
  · exfalso
    have hc : c = ' ' ∨ c = '\t' ∨ c = '\n' ∨ c = '\r' ∨ c = '\x0b' ∨ c = '\x0c' := by
      simpa [isPySpace, or_assoc] using hs
    rcases hc with h1 | h1 | h1 | h1 | h1 | h1 <;> (subst h1; exact absurd h (by decide))

theorem all_nospace_head {c : Char} {cs : List Char}
    (h : (c :: cs).all (fun c => !isPySpace c) = true) :
    isPySpace c = false ∧ cs.all (fun c => !isPySpace c) = true := by
  simp only [List.all_cons, Bool.and_eq_true] at h
  exact ⟨by simpa using h.1, h.2⟩

theorem nameAtLineEnd_wf : ∀ (sname fname tail : List Char),
    sname.all (fun c => !isPySpace c) = true →
    fname.all (fun c => !isPySpace c) = true →
    (tail = [] ∨ ∃ r, tail = '\n' :: r) →
    (nameAtLineEnd (sname ++ tail) fname = true ↔ sname = fname) := by
  intro sname
  induction sname with
  | nil =>
    intro fname tail _ hf htail
    cases fname with
    | nil =>
      constructor
      · intro _; rfl
      · intro _
        rcases htail with rfl | ⟨r, rfl⟩
        · rfl
        · simp [nameAtLineEnd]
    | cons m ms =>
      have hm := (all_nospace_head hf).1
      constructor
      · intro h
        exfalso
        rcases htail with rfl | ⟨r, rfl⟩
        · simp [nameAtLineEnd] at h
        · simp only [List.nil_append, nameAtLineEnd, Bool.and_eq_true, beq_iff_eq] at h
          rw [← h.1] at hm
          exact absurd hm (by decide)
      · intro h
        exact absurd h (by simp)
  | cons c cs ih =>
    intro fname tail hs hf htail
    obtain ⟨hc, hcs⟩ := all_nospace_head hs
    cases fname with
    | nil =>
      constructor
      · intro h
        simp only [List.cons_append, nameAtLineEnd, beq_iff_eq] at h
        rw [h] at hc
        exact absurd hc (by decide)
      · intro h
        exact absurd h (by simp)
    | cons m ms =>
      have hms := (all_nospace_head hf).2
      have iha := ih ms tail hcs hms htail
      constructor
      · intro h
        simp only [List.cons_append, nameAtLineEnd, Bool.and_eq_true, beq_iff_eq] at h
        rw [h.1, iha.mp h.2]
      · intro h
        injection h with h1 h2
        subst h1
        simp only [List.cons_append, nameAtLineEnd, Bool.and_eq_true, beq_iff_eq]
        exact ⟨by trivial, iha.mpr h2⟩

theorem hexThenRest_hexPrefix : ∀ (a rr fname : List Char), a.all isHexDigit = true →
    hexThenRest (a ++ ' ' :: rr) fname = (!a.isEmpty && spacesThenTw (' ' :: rr) fname) := by
  intro a
  induction a with
  | nil =>
    intro rr fname _
    simp [hexThenRest, show isHexDigit ' ' = false from by decide]
  | cons x xs ih =>
    intro rr fname hall
    have hx : isHexDigit x = true := by
      simp only [List.all_cons, Bool.and_eq_true] at hall
      exact hall.1
    have hxs : xs.all isHexDigit = true := by
      simp only [List.all_cons, Bool.and_eq_true] at hall
      exact hall.2
    have hstep : hexThenRest ((x :: xs) ++ ' ' :: rr) fname
        = (isHexDigit x
            && (spacesThenTw (xs ++ ' ' :: rr) fname || hexThenRest (xs ++ ' ' :: rr) fname)) :=
      rfl
    rw [hstep, hx, Bool.true_and]
    cases xs with
    | nil =>
      have he : hexThenRest ([] ++ ' ' :: rr) fname = false := by
        simp [hexThenRest, show isHexDigit ' ' = false from by decide]
      rw [he]
      simp
    | cons y ys =>
      have hy : isHexDigit y = true := by
        simp only [List.all_cons, Bool.and_eq_true] at hxs
        exact hxs.1
      have hnsp : spacesThenTw ((y :: ys) ++ ' ' :: rr) fname = false := by
        have : spacesThenTw ((y :: ys) ++ ' ' :: rr) fname
            = (isPySpace y
                && (twThenName (ys ++ ' ' :: rr) fname || spacesThenTw (ys ++ ' ' :: rr) fname)) :=
          rfl
        rw [this, hex_not_pySpace hy, Bool.false_and]
      rw [hnsp, ih rr fname hxs]
      simp

theorem searchNextLines_append (xs ys fname : List Char)
    (h : ∀ c ∈ xs, c ≠ '\n') :
    searchNextLines (xs ++ ys) fname = searchNextLines ys fname := by
  induction xs with
  | nil => rfl
  | cons c t ih =>
    have hc : (c == '\n') = false := by
      simpa using h c (List.mem_cons_self ..)
    simp only [List.cons_append, searchNextLines, hc, Bool.false_and, Bool.false_or]
    exact ih (fun d hd => h d (List.mem_cons_of_mem _ hd))

theorem definedLineMatch (a : List Char) (styp : Char) (sname fname tail : List Char)
    (ha1 : a ≠ []) (ha2 : a.all isHexDigit = true)
    (hst : isPySpace styp = false)
    (hsn1 : sname ≠ []) (hsn2 : sname.all (fun c => !isPySpace c) = true)
    (hfn : fname.all (fun c => !isPySpace c) = true)
    (htail : tail = [] ∨ ∃ r, tail = '\n' :: r) :
    hexThenRest (a ++ ' ' :: styp :: ' ' :: (sname ++ tail)) fname
      = ((styp == 'T' || styp == 'W') && decide (sname = fname)) := by
  rw [hexThenRest_hexPrefix a _ fname ha2]
  have hane : (!a.isEmpty) = true := by
    cases a with
    | nil => exact absurd rfl ha1
    | cons _ _ => rfl
  rw [hane, Bool.true_and]
  have e1 : spacesThenTw (' ' :: styp :: ' ' :: (sname ++ tail)) fname
      = (twThenName (styp :: ' ' :: (sname ++ tail)) fname
          || spacesThenTw (styp :: ' ' :: (sname ++ tail)) fname) := by
    have : spacesThenTw (' ' :: styp :: ' ' :: (sname ++ tail)) fname
        = (isPySpace ' '
            && (twThenName (styp :: ' ' :: (sname ++ tail)) fname
                || spacesThenTw (styp :: ' ' :: (sname ++ tail)) fname)) := rfl
    rw [this, show isPySpace ' ' = true from rfl, Bool.true_and]
  have e2 : spacesThenTw (styp :: ' ' :: (sname ++ tail)) fname = false := by
    have : spacesThenTw (styp :: ' ' :: (sname ++ tail)) fname
        = (isPySpace styp
            && (twThenName (' ' :: (sname ++ tail)) fname
                || spacesThenTw (' ' :: (sname ++ tail)) fname)) := rfl
    rw [this, hst, Bool.false_and]
  have e3 : twThenName (styp :: ' ' :: (sname ++ tail)) fname
      = ((styp == 'T' || styp == 'W') && spacesThenName (' ' :: (sname ++ tail)) fname) := rfl
  have e4 : spacesThenName (' ' :: (sname ++ tail)) fname
      = (nameAtLineEnd (sname ++ tail) fname || spacesThenName (sname ++ tail) fname) := by
    have : spacesThenName (' ' :: (sname ++ tail)) fname
        = (isPySpace ' '
            && (nameAtLineEnd (sname ++ tail) fname || spacesThenName (sname ++ tail) fname)) := rfl
    rw [this, show isPySpace ' ' = true from rfl, Bool.true_and]
  have e5 : spacesThenName (sname ++ tail) fname = false := by
    cases sname with
    | nil => exact absurd rfl hsn1
    | cons c cs =>
      have hc := (all_nospace_head hsn2).1
      have : spacesThenName ((c :: cs) ++ tail) fname
          = (isPySpace c
              && (nameAtLineEnd (cs ++ tail) fname || spacesThenName (cs ++ tail) fname)) := rfl
      rw [this, hc, Bool.false_and]
  have e6 : nameAtLineEnd (sname ++ tail) fname = decide (sname = fname) := by
    have hiff := nameAtLineEnd_wf sname fname tail hsn2 hfn htail
    by_cases hd : sname = fname
    · subst hd
      rw [hiff.mpr rfl]
      simp
    · have hne : nameAtLineEnd (sname ++ tail) fname = false := by
        cases hval : nameAtLineEnd (sname ++ tail) fname
        · rfl
        · exact absurd (hiff.mp hval) hd
      simp [hne, hd]
  rw [e1, e2, e3, e4, e5, e6]
  simp

theorem renderNmSymbol_no_newline (s : NmSymbol) (hw : symWellFormed s = true) :
    ∀ c ∈ renderNmSymbol s, c ≠ '\n' := by
  intro c hc
  cases haddr : s.addr with
  | some a =>
    simp only [symWellFormed, haddr, goodName, Bool.and_eq_true] at hw
    obtain ⟨⟨⟨_, hsn⟩, hst⟩, _, hax⟩ := hw
    simp only [renderNmSymbol, haddr, List.mem_append, List.mem_cons] at hc
    rcases hc with h | h | h | h | h
    · exact notSpace_ne_newline (hex_not_pySpace (List.all_eq_true.mp hax c h))
    · subst h; decide
    · subst h; exact notSpace_ne_newline (by simpa using hst)
    · subst h; decide
    · exact notSpace_ne_newline (by simpa using List.all_eq_true.mp hsn c h)
  | none =>
    simp only [symWellFormed, haddr, goodName, Bool.and_eq_true] at hw
    obtain ⟨⟨⟨_, hsn⟩, hst⟩, _⟩ := hw
    simp only [renderNmSymbol, haddr, List.mem_append, List.mem_cons,
      List.mem_replicate] at hc
    rcases hc with ⟨_, h⟩ | h | h | h
    · subst h; decide
    · subst h; exact notSpace_ne_newline (by simpa using hst)
    · subst h; decide
    · exact notSpace_ne_newline (by simpa using List.all_eq_true.mp hsn c h)

theorem nmSearch_renderNmTable : ∀ (t : List NmSymbol) (fname : List Char),
    tableWellFormed t = true → fname.all (fun c => !isPySpace c) = true →
    nmSearch (renderNmTable t) fname = tableDefines t fname := by
  intro t
  induction t with
  | nil => intro fname _ _; rfl
  | cons s rest ih =>
    intro fname hw hf
    have hws : symWellFormed s = true ∧ tableWellFormed rest = true := by
      simpa [tableWellFormed, Bool.and_eq_true] using hw
    show nmSearch (renderNmSymbol s ++ '\n' :: renderNmTable rest) fname = _
    unfold nmSearch
    rw [searchNextLines_append _ _ fname (renderNmSymbol_no_newline s hws.1)]
    have hline : hexThenRest (renderNmSymbol s ++ '\n' :: renderNmTable rest) fname
        = definesSym fname s := by
      cases haddr : s.addr with
      | some a =>
        have hw1 := hws.1
        simp only [symWellFormed, haddr, goodName, Bool.and_eq_true] at hw1
        obtain ⟨⟨⟨hsn0, hsn⟩, hst⟩, ha0, hax⟩ := hw1
        have hsn1 : s.sname ≠ [] := by
          cases hx : s.sname with
          | nil => rw [hx] at hsn0; simp at hsn0
          | cons _ _ => simp
        have ha1 : a ≠ [] := by
          cases hx : a with
          | nil => rw [hx] at ha0; simp at ha0
          | cons _ _ => simp
        have hshape : renderNmSymbol s ++ '\n' :: renderNmTable rest
            = a ++ ' ' :: s.styp :: ' ' :: (s.sname ++ '\n' :: renderNmTable rest) := by
          simp [renderNmSymbol, haddr]
        rw [hshape,
          definedLineMatch a s.styp s.sname fname ('\n' :: renderNmTable rest)
            ha1 hax (by simpa using hst) hsn1 hsn hf
            (Or.inr ⟨renderNmTable rest, rfl⟩)]
        by_cases hd : s.sname = fname
        · simp [definesSym, haddr, hd]
        · simp [definesSym, haddr, hd]
      | none =>
        have hshape : renderNmSymbol s ++ '\n' :: renderNmTable rest
            = ' ' :: (List.replicate 16 ' '
                ++ s.styp :: ' ' :: (s.sname ++ '\n' :: renderNmTable rest)) := by
          simp [renderNmSymbol, haddr, List.replicate_succ]
        rw [hshape]
        have : hexThenRest (' ' :: (List.replicate 16 ' '
            ++ s.styp :: ' ' :: (s.sname ++ '\n' :: renderNmTable rest))) fname
            = (isHexDigit ' ' && _) := rfl
        rw [this, show isHexDigit ' ' = false from by decide, Bool.false_and]
        simp [definesSym, haddr]
    rw [hline]
    have hrest : searchNextLines ('\n' :: renderNmTable rest) fname
        = nmSearch (renderNmTable rest) fname := by
      have : searchNextLines ('\n' :: renderNmTable rest) fname
          = ((('\n' : Char) == '\n' && hexThenRest (renderNmTable rest) fname)
              || searchNextLines (renderNmTable rest) fname) := rfl
      rw [this]
      simp [nmSearch]
    rw [hrest, ih fname hws.2 hf]
    simp [tableDefines]

/-- Claim C8: find_function_in_libraries reports a library as defining
the function only if the dynamic symbol table behind its nm -D output
contains a line with the exact function name as a symbol of type T or W;
and among the linked libraries that define it, the one with the
lexicographically smallest resolved path is reported, because libraries
are scanned in sorted order and scanning stops at the first match. -/
theorem claim8_function_search (env : FindEnv)
    (tables : List Char → Option (List NmSymbol))
    (henv : env.nm = fun p => (tables p).map renderNmTable)
    (hwf : ∀ p t, tables p = some t → tableWellFormed t = true)
    (fname : List Char) (hfn : fname.all (fun c => !isPySpace c) = true)
    (l : List Char)
    (hres : (find_function_in_libraries env fname).result = .success l) :
    (∃ t, tables l = some t ∧ tableDefines t fname = true) ∧
    l ∈ (find_function_in_libraries env fname).libraries ∧
    ∀ p ∈ (find_function_in_libraries env fname).libraries,
      (∃ t, tables p = some t ∧ tableDefines t fname = true) → charListLe l p = true := by
  have hbridge : ∀ p, nmMatches env fname p = true
      ↔ ∃ t, tables p = some t ∧ tableDefines t fname = true := by
    intro p
    cases htp : tables p with
    | none => simp [nmMatches, henv, htp]
    | some t =>
      simp [nmMatches, henv, htp, nmSearch_renderNmTable t fname (hwf p t htp) hfn]
  cases hpe : env.pathExists with
  | false => simp [find_function_in_libraries, hpe] at hres
  | true =>
    cases hpf : env.pathIsFile with
    | false => simp [find_function_in_libraries, hpe, hpf] at hres
    | true =>
      cases hld : env.ldd with
      | toolMissing => simp [find_function_in_libraries, hpe, hpf, hld] at hres
      | callFailed => simp [find_function_in_libraries, hpe, hpf, hld] at hres
      | ok out =>
        by_cases hemp : (collectLibraryPaths env (pySplitlines out)).isEmpty = true
        · simp [find_function_in_libraries, hpe, hpf, hld, hemp] at hres
        · rw [Bool.not_eq_true] at hemp
          cases hscan : (scanLibraries env fname
              (List.insertionSort leLibPath (collectLibraryPaths env (pySplitlines out)))).1 with
          | none => simp [find_function_in_libraries, hpe, hpf, hld, hemp, hscan] at hres
          | some l' =>
            have hll : l' = l := by
              simpa [find_function_in_libraries, hpe, hpf, hld, hemp, hscan] using hres
            subst hll
            have hlib : (find_function_in_libraries env fname).libraries
                = List.insertionSort leLibPath (collectLibraryPaths env (pySplitlines out)) := by
              simp [find_function_in_libraries, hpe, hpf, hld, hemp, hscan]
            obtain ⟨hmem, hmatch, hmin⟩ := scanLibraries_success env fname _ l'
              (List.sorted_insertionSort leLibPath _) hscan
            refine ⟨(hbridge l').mp hmatch, ?_, ?_⟩
            · rw [hlib]
              exact hmem
            · intro p hp hdef
              rw [hlib] at hp
              exact hmin p hp ((hbridge p).mpr hdef)

/-- Concrete instantiation of claim C8: with two linked libraries both
defining fopen, the lexicographically smaller path is reported. -/
theorem claim8_function_search_witness :
    charListLe "/lib/liba.so".data "/lib/libz.so".data = true :=
  (claim8_function_search demoEnv demoTables rfl
      (by
        intro p t h
        unfold demoTables at h
        split at h
        · cases h; decide
        · split at h
          · cases h; decide
          · exact Option.noConfusion h)
      "fopen".data (by decide)
      "/lib/liba.so".data (by decide)).2.2
    "/lib/libz.so".data (by decide) ⟨nmTableZ, rfl, by decide⟩
